import Mathlib

/-!
Shallow embedding of `merge_available_points.py`, a script that joins the
names of `Available.csv` with point values from `AllValues.csv`.

Modelling conventions:
* a Python cell value is `CellVal := Option String`: `some s` is a `str`,
  `none` is Python `None` (the reader's `restval` used to pad short rows);
* a Python `dict` is an association list updated in place by `pyDictInsert`
  (first occurrence of the key keeps its position, as CPython dicts do);
* `str.strip()` is `pyStrip`, stripping the ASCII whitespace characters;
* `str.lower()` is per-character `Char.toLower` (`pyLower`);
* acceptance by Python's `float(...)` constructor is the grammar
  `pyFloatAccepts` (optional sign, digit groups with underscores, optional
  fraction and exponent, or a case-insensitive inf/infinity/nan);
* the `csv` module is modelled for simple files (`csvParse`): records are
  the lines of the text split on the newline character, fields are split
  on commas with no quoting, and a blank line yields the empty record —
  exactly what `csv.reader` produces on such input;
* file bytes are `List Nat` (each byte below 256), and the three decoders
  of the encoding fallback chain are modelled byte by byte.
-/

namespace MergeAvailablePoints

/-- A cell value: `some s` models a Python `str`, `none` models Python
`None` (produced by `csv.DictReader` for cells missing from a short row). -/
abbrev CellVal := Option String

/-- A loaded row: the cleaned mapping from (trimmed) column name to cell
value built by `load_csv`, as an insertion-ordered association list. -/
abbrev Row := List (String × CellVal)

/-- The lookup index `points_by_name` built in `main`: a Python dict whose
keys and values are cell values. -/
abbrev PyDict := List (CellVal × CellVal)

/-- The ASCII whitespace characters stripped by Python `str.strip()`
(space, tab, newline, carriage return, vertical tab, form feed). -/
def isPySpace (c : Char) : Bool :=
  c == ' ' || c == '\t' || c == '\n' || c == '\r' || c.toNat == 11 || c.toNat == 12

/-- Strip leading and trailing whitespace from a character list. -/
def pyStripList (l : List Char) : List Char :=
  ((l.dropWhile isPySpace).reverse.dropWhile isPySpace).reverse

/-- Model of Python `str.strip()`. -/
def pyStrip (s : String) : String :=
  String.mk (pyStripList s.data)

/-- Model of Python `str.lower()`: per-character lowering. -/
def pyLower (s : String) : String :=
  String.mk (s.data.map Char.toLower)

/-- Python dict assignment `d[k] = v`: replace the value at the first
entry holding `k`, keeping its position; otherwise append a new entry. -/
def pyDictInsert {K V : Type} [DecidableEq K] : List (K × V) → K → V → List (K × V)
  | [], k, v => [(k, v)]
  | p :: rest, k, v => if p.1 = k then (k, v) :: rest else p :: pyDictInsert rest k v

/-- Python `d.get(k, dflt)`. -/
def pyGet {K V : Type} [DecidableEq K] : List (K × V) → K → V → V
  | [], _, dflt => dflt
  | p :: rest, k, dflt => if p.1 = k then p.2 else pyGet rest k dflt

/-- Python `k in d`. -/
def pyHasKey {K V : Type} [DecidableEq K] : List (K × V) → K → Bool
  | [], _ => false
  | p :: rest, k => if p.1 = k then true else pyHasKey rest k

/-- Python `row.get(column, default)` on a loaded row. -/
def rowGet (r : Row) (k : String) (dflt : CellVal) : CellVal :=
  pyGet r k dflt

/-- Python `list(dict.fromkeys(l))`: order-preserving deduplication keeping
the first occurrence of each element. -/
def pyDedup {α : Type} [DecidableEq α] (l : List α) : List α :=
  l.foldl (fun acc a => if a ∈ acc then acc else acc ++ [a]) []

/-- Truthiness of a Python `Optional[str]`: `None` and `""` are falsy. -/
def pyTruthy : Option String → Bool
  | none => false
  | some s => !(s == "")

/-- Decidable check that `l₁` is a leading segment of `l₂`. -/
def listHasPre {α : Type} [DecidableEq α] : List α → List α → Bool
  | [], _ => true
  | _ :: _, [] => false
  | a :: l₁, b :: l₂ => if a = b then listHasPre l₁ l₂ else false

/-- Decidable check that `needle` occurs contiguously inside the second
list; models Python's `needle in hay` on strings. -/
def listHasSub {α : Type} [DecidableEq α] (needle : List α) : List α → Bool
  | [] => needle.isEmpty
  | b :: bs => if listHasPre needle (b :: bs) then true else listHasSub needle bs

/-- The test `"name" in header.lower()` from `find_name_column`. -/
def hasNameSub (nm : String) : Bool :=
  listHasSub "name".data (pyLower nm).data

/-- Embedding of `find_name_column`: prefer the header equal to `"Name"`,
then the first header whose lower-cased text contains `"name"`, else fail
with the message naming `file_label`. -/
def find_name_column (fieldnames : List String) (file_label : String) :
    Except String String :=
  let exact := fieldnames.find? (fun nm => nm == "Name")
  if pyTruthy exact then Except.ok (exact.getD "")
  else
    let nameLike := fieldnames.find? (fun nm => hasNameSub nm)
    if pyTruthy nameLike then Except.ok (nameLike.getD "")
    else Except.error ("Could not find a name column in " ++ file_label ++ ".")

/-- Consume further digits of a digit group, allowing single underscores
between digits (Python numeric-literal underscores); returns the rest of
the input, or `none` on a misplaced underscore. -/
def udigitsAfter : List Char → Option (List Char)
  | [] => some []
  | c :: cs =>
    if c.isDigit then udigitsAfter cs
    else if c == '_' then
      match cs with
      | [] => none
      | d :: ds => if d.isDigit then udigitsAfter ds else none
    else some (c :: cs)

/-- Consume a nonempty digit group (with optional internal underscores);
`none` if the input does not start with a digit or an underscore is
misplaced. -/
def udigits : List Char → Option (List Char)
  | [] => none
  | c :: cs => if c.isDigit then udigitsAfter cs else none

/-- Accept an optional exponent part (`e`/`E`, optional sign, digit group)
that must consume the whole remaining input. -/
def expPart : List Char → Bool
  | [] => true
  | e :: rest =>
    if e == 'e' || e == 'E' then
      match (match rest with
             | s :: rs => if s == '+' || s == '-' then rs else s :: rs
             | [] => []) with
      | rest2 =>
        match udigits rest2 with
        | some [] => true
        | _ => false
    else false

/-- Accept the significand-with-exponent body of a float literal:
`digits [. [digits]] [exp]` or `. digits [exp]`. -/
def floatBody (l : List Char) : Bool :=
  match udigits l with
  | some rest =>
    match rest with
    | '.' :: rest2 =>
      (match udigits rest2 with
       | some rest3 => expPart rest3
       | none => expPart rest2)
    | _ => expPart rest
  | none =>
    match l with
    | '.' :: rest =>
      (match udigits rest with
       | some rest2 => expPart rest2
       | none => false)
    | _ => false

/-- Model of acceptance by Python's `float(...)`: optional sign, then a
case-insensitive `inf`/`infinity`/`nan` or a numeric body. -/
def pyFloatAccepts (s : String) : Bool :=
  let l := match s.data with
    | c :: cs => if c == '+' || c == '-' then cs else c :: cs
    | [] => []
  let low := l.map Char.toLower
  if low = "inf".data ∨ low = "infinity".data ∨ low = "nan".data then true
  else floatBody l

/-- Embedding of `is_numeric`: `None` is not numeric; otherwise strip the
value, reject the empty string, and test `float(...)` acceptance. -/
def is_numeric : CellVal → Bool
  | none => false
  | some value =>
    let stripped := pyStrip value
    if stripped = "" then false else pyFloatAccepts stripped

/-- The filter `value is not None and value.strip() != ""` used on a
column's cells by `find_points_column`. -/
def isNonBlank : CellVal → Bool
  | none => false
  | some s => !(pyStrip s == "")

/-- Embedding of `find_points_column`: prefer the header equal to
`"Points"`, then the first header whose non-blank cells are nonempty and
all numeric, else fail. -/
def find_points_column (fieldnames : List String) (rows : List Row) :
    Except String String :=
  let exact := fieldnames.find? (fun nm => nm == "Points")
  if pyTruthy exact then Except.ok (exact.getD "")
  else
    match fieldnames.find? (fun column_name =>
        let nonBlank := (rows.map (fun r => rowGet r column_name (some ""))).filter isNonBlank
        !nonBlank.isEmpty && nonBlank.all is_numeric) with
    | some c => Except.ok c
    | none => Except.error "Could not find a points column in AllValues.csv."

/-- Statement of claim C6's description of name inference: `"Name"` when
present, else the first header whose lower-cased text contains `"name"`. -/
def nameColumnSpec (fieldnames : List String) : Option String :=
  if "Name" ∈ fieldnames then some "Name"
  else fieldnames.find? hasNameSub

/-- Statement of claim C5's qualifying test for a column: at least one
non-blank cell, and every non-blank cell parses as a float (blank cells
are ignored). -/
def columnQualifies (rows : List Row) (c : String) : Bool :=
  let values := rows.map (fun r => rowGet r c (some ""))
  values.any isNonBlank &&
    values.all (fun v => !(isNonBlank v) || pyFloatAccepts (pyStrip (v.getD "")))

/-- Statement of claim C5's description of points inference: `"Points"`
when present, else the first qualifying header. -/
def pointsColumnSpec (fieldnames : List String) (rows : List Row) : Option String :=
  if "Points" ∈ fieldnames then some "Points"
  else fieldnames.find? (columnQualifies rows)

/-- The raw dict built for one data record by `csv.DictReader`:
`dict(zip(fieldnames, row))`, with the trailing fieldnames of a short row
padded with `restval = None`.  Extra cells of a long row go under the
`restkey = None` key, which `load_csv` skips, so they are omitted here. -/
def dictRowRaw (rawFields : List String) (record : List String) : Row :=
  let zipped := (List.zip rawFields record).foldl
    (fun d p => pyDictInsert d p.1 (some p.2)) []
  (rawFields.drop record.length).foldl (fun d f => pyDictInsert d f none) zipped

/-- The cleaning loop of `load_csv`: re-insert every entry with the key
stripped and any string value stripped (`None` values pass through). -/
def cleanRow (rawFields : List String) (record : List String) : Row :=
  (dictRowRaw rawFields record).foldl
    (fun c p => pyDictInsert c (pyStrip p.1) (p.2.map pyStrip)) []

/-- The data rows produced by the reader loop of `load_csv`: blank records
are skipped by `csv.DictReader`, every other record is cleaned. -/
def loadRows (rawFields : List String) (records : List (List String)) : List Row :=
  (records.filter (fun r => !r.isEmpty)).map (cleanRow rawFields)

/-- Embedding of the record-level part of `load_csv`: the reader's first
record (if any) is the header; a missing or empty header record raises the
no-header `ValueError`; otherwise return the stripped fieldnames and the
cleaned rows. -/
def load_records (path : String) (records : List (List String)) :
    Except String (List String × List Row) :=
  match records with
  | [] => Except.error (path ++ " has no header row.")
  | rawFields :: rest =>
    if rawFields.isEmpty then Except.error (path ++ " has no header row.")
    else Except.ok (rawFields.map pyStrip, loadRows rawFields rest)

/-- Split a character list at every occurrence of `sep` (the result always
has one more piece than there are separators). -/
def splitListOn (sep : Char) : List Char → List (List Char)
  | [] => [[]]
  | c :: rest =>
    let r := splitListOn sep rest
    if c == sep then [] :: r
    else
      match r with
      | h :: t => (c :: h) :: t
      | [] => [[c]]

/-- Model of `csv.reader` on simple (quote-free, newline-terminated-lines)
text: one record per line, fields split on commas, a blank line giving the
empty record; a trailing newline does not start a final record. -/
def csvParse (text : String) : List (List String) :=
  let lines := splitListOn '\n' text.data
  let lines := match lines.getLast? with
    | some [] => lines.dropLast
    | _ => lines
  lines.map (fun lchars =>
    if lchars.isEmpty then [] else (splitListOn ',' lchars).map String.mk)

/-- Strict UTF-8 decoding of a byte sequence (continuation-byte checks,
shortest-form and surrogate/range rejection), as Python's `utf-8` codec
performs. -/
def utf8Decode : List Nat → Option (List Char)
  | [] => some []
  | b :: bs =>
    if b < 0x80 then (utf8Decode bs).map (fun cs => Char.ofNat b :: cs)
    else if b < 0xC2 then none
    else if b < 0xE0 then
      match bs with
      | b1 :: rest =>
        if 0x80 ≤ b1 ∧ b1 < 0xC0 then
          (utf8Decode rest).map (fun cs => Char.ofNat ((b - 0xC0) * 64 + (b1 - 0x80)) :: cs)
        else none
      | [] => none
    else if b < 0xF0 then
      match bs with
      | b1 :: b2 :: rest =>
        if (if b = 0xE0 then 0xA0 else 0x80) ≤ b1 ∧
            b1 < (if b = 0xED then 0xA0 else 0xC0) ∧
            0x80 ≤ b2 ∧ b2 < 0xC0 then
          (utf8Decode rest).map (fun cs =>
            Char.ofNat ((b - 0xE0) * 4096 + (b1 - 0x80) * 64 + (b2 - 0x80)) :: cs)
        else none
      | _ => none
    else if b < 0xF5 then
      match bs with
      | b1 :: b2 :: b3 :: rest =>
        if (if b = 0xF0 then 0x90 else 0x80) ≤ b1 ∧
            b1 < (if b = 0xF4 then 0x90 else 0xC0) ∧
            0x80 ≤ b2 ∧ b2 < 0xC0 ∧ 0x80 ≤ b3 ∧ b3 < 0xC0 then
          (utf8Decode rest).map (fun cs =>
            Char.ofNat ((b - 0xF0) * 262144 + (b1 - 0x80) * 4096 +
              (b2 - 0x80) * 64 + (b3 - 0x80)) :: cs)
        else none
      | _ => none
    else none

/-- The `utf-8-sig` codec: strip a UTF-8 byte order mark if present, then
decode strictly. -/
def decodeUtf8Sig (bytes : List Nat) : Option String :=
  let body := match bytes with
    | 0xEF :: 0xBB :: 0xBF :: rest => rest
    | _ => bytes
  (utf8Decode body).map String.mk

/-- The `cp1252` mapping for one byte: `none` for the five undefined code
points 0x81, 0x8D, 0x8F, 0x90, 0x9D, and for anything that is not a byte. -/
def cp1252Char (b : Nat) : Option Nat :=
  if b < 0x80 then some b
  else if 0xA0 ≤ b ∧ b < 256 then some b
  else match b with
    | 0x80 => some 0x20AC | 0x82 => some 0x201A | 0x83 => some 0x0192
    | 0x84 => some 0x201E | 0x85 => some 0x2026 | 0x86 => some 0x2020
    | 0x87 => some 0x2021 | 0x88 => some 0x02C6 | 0x89 => some 0x2030
    | 0x8A => some 0x0160 | 0x8B => some 0x2039 | 0x8C => some 0x0152
    | 0x8E => some 0x017D | 0x91 => some 0x2018 | 0x92 => some 0x2019
    | 0x93 => some 0x201C | 0x94 => some 0x201D | 0x95 => some 0x2022
    | 0x96 => some 0x2013 | 0x97 => some 0x2014 | 0x98 => some 0x02DC
    | 0x99 => some 0x2122 | 0x9A => some 0x0161 | 0x9B => some 0x203A
    | 0x9C => some 0x0153 | 0x9E => some 0x017E | 0x9F => some 0x0178
    | _ => none

/-- Apply a partial function to every element, failing if any application
fails (the behavior of a charwise codec on a byte sequence). -/
def mapOption {A B : Type} (f : A → Option B) : List A → Option (List B)
  | [] => some []
  | a :: l =>
    match f a with
    | none => none
    | some b =>
      match mapOption f l with
      | none => none
      | some bs => some (b :: bs)

/-- Decode a byte sequence with the `cp1252` codec. -/
def decodeCp1252 (bytes : List Nat) : Option String :=
  (mapOption cp1252Char bytes).map (fun ns => String.mk (ns.map Char.ofNat))

/-- Decode a byte sequence with the `latin-1` codec: every byte maps to
the code point of the same value. -/
def decodeLatin1 (bytes : List Nat) : Option String :=
  (mapOption (fun b => if b < 256 then some (Char.ofNat b) else none) bytes).map
    String.mk

/-- The encoding fallback chain of `load_csv`: try `utf-8-sig`, `cp1252`,
`latin-1` in order; the first success wins; if all fail, raise the
all-encodings-failed `UnicodeDecodeError`. -/
def load_decode (bytes : List Nat) : Except String String :=
  match decodeUtf8Sig bytes with
  | some text => Except.ok text
  | none =>
    match decodeCp1252 bytes with
    | some text => Except.ok text
    | none =>
      match decodeLatin1 bytes with
      | some text => Except.ok text
      | none => Except.error "Unable to decode using attempted encodings"

/-- Embedding of `load_csv`: decode bytes via the fallback chain, then
parse the records and apply the header/row logic of `load_records`. -/
def load_csv (path : String) (bytes : List Nat) :
    Except String (List String × List Row) :=
  match load_decode bytes with
  | Except.error e => Except.error e
  | Except.ok text => load_records path (csvParse text)

/-- The index-building loop of `main`: insert the first occurrence of each
name, append every repeat occurrence to the duplicate list and keep the
existing mapped value. -/
def buildIndexAux (nameCol pointsCol : String) :
    List Row → PyDict → List CellVal → PyDict × List CellVal
  | [], idx, dups => (idx, dups)
  | r :: rs, idx, dups =>
    let nm := rowGet r nameCol (some "")
    if pyHasKey idx nm then
      buildIndexAux nameCol pointsCol rs idx (dups ++ [nm])
    else
      buildIndexAux nameCol pointsCol rs
        (pyDictInsert idx nm (rowGet r pointsCol (some ""))) dups

/-- `points_by_name` and `duplicate_names` as built by `main`. -/
def buildIndex (nameCol pointsCol : String) (rows : List Row) :
    PyDict × List CellVal :=
  buildIndexAux nameCol pointsCol rows [] []

/-- The join loop of `main`: for each available row look up its name with
default `""`; a looked-up value equal to `""` is appended to
`missing_names`; one output pair `(Name, Points)` is emitted per row. -/
def joinAux (idx : PyDict) (nameCol : String) :
    List Row → List CellVal × List (CellVal × CellVal)
  | [] => ([], [])
  | r :: rs =>
    let nm := rowGet r nameCol (some "")
    let points := pyGet idx nm (some "")
    let rest := joinAux idx nameCol rs
    ((if points = some "" then nm :: rest.1 else rest.1), (nm, points) :: rest.2)

/-- `missing_names` and `output_rows` as built by `main`. -/
def joinRows (idx : PyDict) (nameCol : String) (rows : List Row) :
    List CellVal × List (CellVal × CellVal) :=
  joinAux idx nameCol rows

/-- The successful outcome of a run of `main`: the rows written to the
output file and the two deduplicated diagnostic lists. -/
structure RunResult where
  outputRows : List (CellVal × CellVal)
  uniqueDuplicates : List CellVal
  uniqueMissing : List CellVal
  deriving DecidableEq

/-- `True` exactly on `Except.ok`. -/
def exceptOk {E A : Type} : Except E A → Bool
  | Except.ok _ => true
  | Except.error _ => false

/-- Embedding of `main`: load both files, infer the three columns, build
the index, join, and only then (in the `ok` branch, after every fallible
stage) produce the output rows and deduplicated diagnostics.  The output
file is written from `outputRows` strictly after all stages succeed,
mirroring the statement order of the source. -/
def mainModel (allBytes availBytes : List Nat) : Except String RunResult :=
  match load_csv "AllValues.csv" allBytes with
  | Except.error e => Except.error e
  | Except.ok (all_fields, all_rows) =>
    match load_csv "Available.csv" availBytes with
    | Except.error e => Except.error e
    | Except.ok (available_fields, available_rows) =>
      match find_name_column all_fields "AllValues.csv" with
      | Except.error e => Except.error e
      | Except.ok all_name_column =>
        match find_name_column available_fields "Available.csv" with
        | Except.error e => Except.error e
        | Except.ok available_name_column =>
          match find_points_column all_fields all_rows with
          | Except.error e => Except.error e
          | Except.ok points_column =>
            let built := buildIndex all_name_column points_column all_rows
            let joined := joinRows built.1 available_name_column available_rows
            Except.ok { outputRows := joined.2,
                        uniqueDuplicates := pyDedup built.2,
                        uniqueMissing := pyDedup joined.1 }

/-- Statement of claim C1's description of the joined Points value: the
points-column value of the first value-source row whose name-column value
equals the key, or the empty string when no row has that name. -/
def firstMatchPoints (allRows : List Row) (nameCol pointsCol : String)
    (key : CellVal) : CellVal :=
  match allRows.find? (fun r => decide (rowGet r nameCol (some "") = key)) with
  | some r => rowGet r pointsCol (some "")
  | none => some ""

theorem pyGet_pyDictInsert_self {K V : Type} [DecidableEq K]
    (d : List (K × V)) (k : K) (v dflt : V) :
    pyGet (pyDictInsert d k v) k dflt = v := by
  induction d with
  | nil => simp [pyDictInsert, pyGet]
  | cons p rest ih =>
    by_cases h : p.1 = k
    · simp [pyDictInsert, h, pyGet]
    · simp [pyDictInsert, h, pyGet, ih]

theorem pyGet_pyDictInsert_ne {K V : Type} [DecidableEq K]
    (d : List (K × V)) (k k' : K) (v dflt : V) (h : k' ≠ k) :
    pyGet (pyDictInsert d k v) k' dflt = pyGet d k' dflt := by
  have hkn : k ≠ k' := fun hh => h hh.symm
  induction d with
  | nil => simp [pyDictInsert, pyGet, hkn]
  | cons p rest ih =>
    by_cases hp : p.1 = k
    · have hpq : p.1 ≠ k' := by rw [hp]; exact hkn
      simp [pyDictInsert, hp, pyGet, hkn, hpq]
    · by_cases hq : p.1 = k'
      · have hq2 : ¬(k' = k) := by rw [← hq]; exact hp
        simp [pyDictInsert, hp, pyGet, hq, hq2]
      · simp [pyDictInsert, hp, pyGet, hq, ih]

theorem pyHasKey_pyDictInsert {K V : Type} [DecidableEq K]
    (d : List (K × V)) (k k' : K) (v : V) :
    pyHasKey (pyDictInsert d k v) k' = (decide (k = k') || pyHasKey d k') := by
  induction d with
  | nil => simp [pyDictInsert, pyHasKey]
  | cons p rest ih =>
    by_cases hp : p.1 = k
    · by_cases hq : k = k'
      · simp [pyDictInsert, hp, pyHasKey, hq]
      · have hpq : p.1 ≠ k' := by rw [hp]; exact hq
        simp [pyDictInsert, hp, pyHasKey, hq, hpq]
    · by_cases hq : p.1 = k'
      · have hq2 : ¬(k' = k) := by rw [← hq]; exact hp
        simp [pyDictInsert, hp, pyHasKey, hq, hq2]
      · simp [pyDictInsert, hp, pyHasKey, hq, ih]

theorem pyGet_of_pyHasKey_eq_false {K V : Type} [DecidableEq K]
    (d : List (K × V)) (k : K) (dflt : V) (h : pyHasKey d k = false) :
    pyGet d k dflt = dflt := by
  induction d with
  | nil => rfl
  | cons p rest ih =>
    by_cases hp : p.1 = k
    · simp [pyHasKey, hp] at h
    · simp [pyHasKey, hp] at h
      simp [pyGet, hp, ih h]

/-- The stored points value of a key after the index-building loop: the
value already present wins; otherwise the points value of the first
remaining row whose name matches; otherwise the default. -/
theorem buildIndexAux_get (nameCol pointsCol : String) :
    ∀ (rows : List Row) (idx : PyDict) (dups : List CellVal) (key dflt : CellVal),
      pyGet (buildIndexAux nameCol pointsCol rows idx dups).1 key dflt =
        if pyHasKey idx key then pyGet idx key dflt
        else
          match rows.find? (fun r => decide (rowGet r nameCol (some "") = key)) with
          | some r => rowGet r pointsCol (some "")
          | none => dflt := by
  intro rows
  induction rows with
  | nil =>
    intro idx dups key dflt
    by_cases h : pyHasKey idx key
    · simp [buildIndexAux, h]
    · simp only [Bool.not_eq_true] at h
      simp [buildIndexAux, h, pyGet_of_pyHasKey_eq_false _ _ _ h]
  | cons r rs ih =>
    intro idx dups key dflt
    by_cases hn : pyHasKey idx (rowGet r nameCol (some ""))
    · rw [show buildIndexAux nameCol pointsCol (r :: rs) idx dups =
            buildIndexAux nameCol pointsCol rs idx
              (dups ++ [rowGet r nameCol (some "")]) by simp [buildIndexAux, hn]]
      rw [ih]
      by_cases hk : pyHasKey idx key
      · simp [hk]
      · have hne : rowGet r nameCol (some "") ≠ key := by
          intro he; rw [he] at hn; rw [hn] at hk; exact hk rfl
        simp [hk, List.find?_cons, hne]
    · simp only [Bool.not_eq_true] at hn
      rw [show buildIndexAux nameCol pointsCol (r :: rs) idx dups =
            buildIndexAux nameCol pointsCol rs
              (pyDictInsert idx (rowGet r nameCol (some ""))
                (rowGet r pointsCol (some ""))) dups by simp [buildIndexAux, hn]]
      rw [ih]
      by_cases hkey : key = rowGet r nameCol (some "")
      · subst hkey
        simp [pyHasKey_pyDictInsert, hn, pyGet_pyDictInsert_self, List.find?_cons]
      · have h2 : rowGet r nameCol (some "") ≠ key := fun hh => hkey hh.symm
        have h1 : pyHasKey (pyDictInsert idx (rowGet r nameCol (some ""))
            (rowGet r pointsCol (some ""))) key = pyHasKey idx key := by
          simp [pyHasKey_pyDictInsert, h2]
        rw [h1, pyGet_pyDictInsert_ne _ _ _ _ _ hkey]
        by_cases hk : pyHasKey idx key
        · simp [hk]
        · simp [hk, List.find?_cons, h2]

/-- Looking a key up in `points_by_name` with default `""` yields the
points value of the first matching value-source row, or `""`. -/
theorem buildIndex_get (nameCol pointsCol : String) (rows : List Row) (key : CellVal) :
    pyGet (buildIndex nameCol pointsCol rows).1 key (some "") =
      firstMatchPoints rows nameCol pointsCol key := by
  rw [buildIndex, buildIndexAux_get]
  simp only [pyHasKey, Bool.false_eq_true, if_false, firstMatchPoints]

/-- The output rows of the join loop: one pair per available row, in
order, pairing the row's key with its index lookup. -/
theorem joinAux_snd (idx : PyDict) (nameCol : String) :
    ∀ rows : List Row,
      (joinAux idx nameCol rows).2 =
        rows.map (fun r =>
          (rowGet r nameCol (some ""),
           pyGet idx (rowGet r nameCol (some "")) (some ""))) := by
  intro rows
  induction rows with
  | nil => rfl
  | cons r rs ih => simp [joinAux, ih]

/-- The missing-names list of the join loop: the keys of the available
rows, in order, whose lookup (with default `""`) is the empty string. -/
theorem joinAux_fst (idx : PyDict) (nameCol : String) :
    ∀ rows : List Row,
      (joinAux idx nameCol rows).1 =
        (rows.map (fun r => rowGet r nameCol (some ""))).filter
          (fun k => decide (pyGet idx k (some "") = some "")) := by
  intro rows
  induction rows with
  | nil => rfl
  | cons r rs ih =>
    by_cases h : pyGet idx (rowGet r nameCol (some "")) (some "") = some ""
    · simp [joinAux, h, ih]
    · simp [joinAux, h, ih]

/-- Claim C1 — left-join correctness: the emitted joined rows are one per
available-items row, in input order, and each one's Points field is the
points-column value of the first value-source row whose name-column value
equals that row's name, or the empty string (`firstMatchPoints`, written
from the claim) if no value-source row has that name. -/
theorem claim_C1 (allRows availRows : List Row) (allName availName pointsCol : String) :
    (joinRows (buildIndex allName pointsCol allRows).1 availName availRows).2 =
      availRows.map (fun r =>
        (rowGet r availName (some ""),
         firstMatchPoints allRows allName pointsCol (rowGet r availName (some "")))) := by
  rw [joinRows, joinAux_snd]
  simp only [buildIndex_get]

/-- Claim C2 — totality of the join: the number of joined output rows
equals the number of available-items rows, for every index. -/
theorem claim_C2 (idx : PyDict) (availName : String) (availRows : List Row) :
    (joinRows idx availName availRows).2.length = availRows.length := by
  rw [joinRows, joinAux_snd, List.length_map]

/-- Key lookup after the whole index construction, for an arbitrary
default value. -/
theorem buildIndex_get_general (nameCol pointsCol : String) (rows : List Row)
    (key dflt : CellVal) :
    pyGet (buildIndex nameCol pointsCol rows).1 key dflt =
      match rows.find? (fun r => decide (rowGet r nameCol (some "") = key)) with
      | some r => rowGet r pointsCol (some "")
      | none => dflt := by
  rw [buildIndex, buildIndexAux_get]
  simp only [pyHasKey, Bool.false_eq_true, if_false]

/-- Occurrence counting for the duplicate list built by the index loop:
every occurrence of a key beyond the first (or beyond none, when the key
is already indexed) is appended. -/
theorem buildIndexAux_dups_count (nameCol pointsCol : String) :
    ∀ (rows : List Row) (idx : PyDict) (dups : List CellVal) (key : CellVal),
      ((buildIndexAux nameCol pointsCol rows idx dups).2).count key =
        dups.count key +
          (if pyHasKey idx key then
            (rows.map (fun r => rowGet r nameCol (some ""))).count key
           else (rows.map (fun r => rowGet r nameCol (some ""))).count key - 1) := by
  intro rows
  induction rows with
  | nil =>
    intro idx dups key
    by_cases h : pyHasKey idx key <;> simp [buildIndexAux, h]
  | cons r rs ih =>
    intro idx dups key
    by_cases hn : pyHasKey idx (rowGet r nameCol (some ""))
    · rw [show buildIndexAux nameCol pointsCol (r :: rs) idx dups =
            buildIndexAux nameCol pointsCol rs idx
              (dups ++ [rowGet r nameCol (some "")]) by simp [buildIndexAux, hn]]
      rw [ih]
      by_cases hk : key = rowGet r nameCol (some "")
      · subst hk
        simp [List.count_append, List.count_cons, hn]
        omega
      · simp [List.count_append, List.count_cons, hn, hk]
    · simp only [Bool.not_eq_true] at hn
      rw [show buildIndexAux nameCol pointsCol (r :: rs) idx dups =
            buildIndexAux nameCol pointsCol rs
              (pyDictInsert idx (rowGet r nameCol (some ""))
                (rowGet r pointsCol (some ""))) dups by simp [buildIndexAux, hn]]
      rw [ih]
      by_cases hk : key = rowGet r nameCol (some "")
      · subst hk
        have h1 : pyHasKey (pyDictInsert idx (rowGet r nameCol (some ""))
            (rowGet r pointsCol (some ""))) (rowGet r nameCol (some "")) = true := by
          simp [pyHasKey_pyDictInsert]
        simp [h1, hn, List.count_cons]
      · have hk2 : rowGet r nameCol (some "") ≠ key := fun hh => hk hh.symm
        have h1 : pyHasKey (pyDictInsert idx (rowGet r nameCol (some ""))
            (rowGet r pointsCol (some ""))) key = pyHasKey idx key := by
          simp [pyHasKey_pyDictInsert, hk2]
        simp [h1, List.count_cons, hk]

/-- Membership in the order-preserving deduplication fold. -/
theorem mem_foldl_dedup {α : Type} [DecidableEq α] :
    ∀ (l acc : List α) (x : α),
      (x ∈ l.foldl (fun acc2 a => if a ∈ acc2 then acc2 else acc2 ++ [a]) acc) ↔
        (x ∈ acc ∨ x ∈ l) := by
  intro l
  induction l with
  | nil => simp
  | cons a l ih =>
    intro acc x
    rw [List.foldl_cons, ih]
    by_cases h : a ∈ acc
    · simp only [if_pos h, List.mem_cons]
      constructor
      · intro h2
        rcases h2 with h2 | h2
        · exact Or.inl h2
        · exact Or.inr (Or.inr h2)
      · intro h2
        rcases h2 with h2 | h2 | h2
        · exact Or.inl h2
        · exact Or.inl (h2 ▸ h)
        · exact Or.inr h2
    · simp [h, List.mem_append, List.mem_cons, or_assoc]

/-- The deduplication fold returns a duplicate-free list when started from
a duplicate-free accumulator. -/
theorem nodup_foldl_dedup {α : Type} [DecidableEq α] :
    ∀ (l acc : List α), acc.Nodup →
      (l.foldl (fun acc2 a => if a ∈ acc2 then acc2 else acc2 ++ [a]) acc).Nodup := by
  intro l
  induction l with
  | nil => intro acc h; simpa using h
  | cons a l ih =>
    intro acc h
    rw [List.foldl_cons]
    apply ih
    by_cases ha : a ∈ acc
    · simpa [ha] using h
    · rw [if_neg ha]
      refine List.Nodup.append h (List.nodup_singleton a) ?_
      intro x hx hxa
      rw [List.mem_singleton] at hxa
      subst hxa
      exact ha hx

/-- The deduplication fold returns a subsequence of `m ++ l` whenever the
accumulator is a subsequence of `m`. -/
theorem sublist_foldl_dedup {α : Type} [DecidableEq α] :
    ∀ (l acc m : List α), acc.Sublist m →
      (l.foldl (fun acc2 a => if a ∈ acc2 then acc2 else acc2 ++ [a]) acc).Sublist
        (m ++ l) := by
  intro l
  induction l with
  | nil => intro acc m h; simpa using h
  | cons a l ih =>
    intro acc m h
    rw [List.foldl_cons]
    have hstep : (if a ∈ acc then acc else acc ++ [a]).Sublist (m ++ [a]) := by
      by_cases ha : a ∈ acc
      · rw [if_pos ha]
        exact h.trans (List.sublist_append_left m [a])
      · rw [if_neg ha]
        exact h.append (List.Sublist.refl [a])
    have := ih (if a ∈ acc then acc else acc ++ [a]) (m ++ [a]) hstep
    rwa [List.append_assoc, List.singleton_append] at this

/-- Claim C3 — first-occurrence-wins with duplicate diagnostics: a key
already present in the index keeps its first mapped points value (lookup
returns the points value of the first row holding the key), every repeat
occurrence of a key is recorded in the duplicate list (its occurrence
count there is one less than its occurrence count among the value-source
names), and the deduplicated diagnostic is duplicate-free, holds exactly
the recorded names, and is a subsequence of the recorded list (first-seen
order). -/
theorem claim_C3 (nameCol pointsCol : String) (rows : List Row) :
    (∀ key dflt, pyGet (buildIndex nameCol pointsCol rows).1 key dflt =
        match rows.find? (fun r => decide (rowGet r nameCol (some "") = key)) with
        | some r => rowGet r pointsCol (some "")
        | none => dflt)
    ∧ (∀ key, ((buildIndex nameCol pointsCol rows).2).count key =
        ((rows.map (fun r => rowGet r nameCol (some ""))).count key) - 1)
    ∧ (pyDedup (buildIndex nameCol pointsCol rows).2).Nodup
    ∧ (∀ key, key ∈ pyDedup (buildIndex nameCol pointsCol rows).2 ↔
        key ∈ (buildIndex nameCol pointsCol rows).2)
    ∧ (pyDedup (buildIndex nameCol pointsCol rows).2).Sublist
        (buildIndex nameCol pointsCol rows).2 := by
  refine ⟨fun key dflt => buildIndex_get_general nameCol pointsCol rows key dflt,
    fun key => ?_, ?_, fun key => ?_, ?_⟩
  · rw [buildIndex, buildIndexAux_dups_count]
    simp [pyHasKey]
  · exact nodup_foldl_dedup _ [] List.nodup_nil
  · rw [pyDedup, mem_foldl_dedup]
    simp
  · have := sublist_foldl_dedup ((buildIndex nameCol pointsCol rows).2) [] [] (List.Sublist.refl [])
    simpa using this

/-- Claim C4, amended — missing-key diagnostic as the code implements it:
an available row's key is recorded in the missing-names list exactly when
its index lookup with default `""` returns the empty string (that is, the
key is absent from the index or is mapped to the empty string), every such
occurrence is recorded in input order, and a joined row's Points value is
the empty string exactly when its Name is recorded. -/
theorem claim_C4_amended (idx : PyDict) (nameCol : String) (availRows : List Row) :
    (joinRows idx nameCol availRows).1 =
      (availRows.map (fun r => rowGet r nameCol (some ""))).filter
        (fun k => decide (pyGet idx k (some "") = some ""))
    ∧ ∀ p ∈ (joinRows idx nameCol availRows).2,
        (p.2 = some "" ↔ p.1 ∈ (joinRows idx nameCol availRows).1) := by
  constructor
  · exact joinAux_fst idx nameCol availRows
  · intro p hp
    rw [joinRows, joinAux_snd] at hp
    rcases List.mem_map.mp hp with ⟨r, hr, rfl⟩
    rw [joinRows, joinAux_fst]
    constructor
    · intro hempty
      rw [List.mem_filter]
      refine ⟨List.mem_map.mpr ⟨r, hr, rfl⟩, ?_⟩
      simpa using hempty
    · intro hmem
      rw [List.mem_filter] at hmem
      simpa using hmem.2

/-- Claim C4, counterexample to the original statement: with the single
value-source row mapping name `"A"` to points `""`, the key `"A"` is
present in the lookup index, yet the join of the single available row
named `"A"` records `"A"` in the missing-names list — so recording is not
equivalent to absence from the index. -/
theorem claim_C4_counterexample :
    pyHasKey (buildIndex "Name" "Points"
        [[("Name", some "A"), ("Points", some "")]]).1 (some "A") = true
    ∧ (joinRows (buildIndex "Name" "Points"
          [[("Name", some "A"), ("Points", some "")]]).1 "Name"
        [[("Name", some "A")]]).1 = [some "A"] := by
  exact ⟨by decide, by decide⟩

theorem find?_beq_eq_some {s₀ x : String} {l : List String}
    (h : l.find? (fun nm => nm == s₀) = some x) : x = s₀ := by
  have := List.find?_some h
  simpa [beq_iff_eq] using this

theorem find?_beq_eq_none {s₀ : String} {l : List String} :
    l.find? (fun nm => nm == s₀) = none ↔ s₀ ∉ l := by
  rw [List.find?_eq_none]
  constructor
  · intro h hmem
    exact absurd (by simp : (s₀ == s₀) = true) (h s₀ hmem)
  · intro h x hx
    simp only [beq_iff_eq]
    intro he
    exact h (he ▸ hx)

theorem hasNameSub_ne_empty {t : String} (h : hasNameSub t = true) : t ≠ "" := by
  intro he
  subst he
  exact absurd h (by decide)

/-- Claim C6 — name-column inference: `find_name_column` returns the
header equal to `"Name"` when one exists, otherwise the first header whose
lower-cased text contains `"name"` (`nameColumnSpec`, written from the
claim), and otherwise fails with the error naming the offending file. -/
theorem claim_C6 (fieldnames : List String) (file_label : String) :
    find_name_column fieldnames file_label =
      match nameColumnSpec fieldnames with
      | some c => Except.ok c
      | none =>
        Except.error ("Could not find a name column in " ++ file_label ++ ".") := by
  rw [find_name_column, nameColumnSpec]
  cases h : fieldnames.find? (fun nm => nm == "Name") with
  | some s =>
    have hs : s = "Name" := find?_beq_eq_some h
    have hmem : s ∈ fieldnames := List.mem_of_find?_eq_some h
    subst hs
    simp [h, pyTruthy, hmem]
  | none =>
    have hmem : "Name" ∉ fieldnames := find?_beq_eq_none.mp h
    cases h2 : fieldnames.find? hasNameSub with
    | some t =>
      have ht : hasNameSub t = true := List.find?_some h2
      have htne : ¬(t = "") := hasNameSub_ne_empty ht
      simp [h, h2, pyTruthy, hmem, htne]
    | none =>
      simp [h, h2, pyTruthy, hmem]

theorem filter_isEmpty_eq_not_any {α : Type} (p : α → Bool) :
    ∀ l : List α, (l.filter p).isEmpty = !(l.any p) := by
  intro l
  induction l with
  | nil => rfl
  | cons a l ih =>
    by_cases h : p a <;> simp [List.filter_cons, h, ih]

theorem filter_all_congr {α : Type} (p q q' : α → Bool)
    (hq : ∀ a, p a = true → q a = q' a) :
    ∀ l : List α, (l.filter p).all q = l.all (fun a => !p a || q' a) := by
  intro l
  induction l with
  | nil => rfl
  | cons a l ih =>
    by_cases h : p a
    · simp [List.filter_cons, h, ih, hq a h]
    · simp only [Bool.not_eq_true] at h
      simp [List.filter_cons, h, ih]

theorem is_numeric_of_isNonBlank {v : CellVal} (h : isNonBlank v = true) :
    is_numeric v = pyFloatAccepts (pyStrip (v.getD "")) := by
  cases v with
  | none => exact absurd h (by decide)
  | some s =>
    have hne : ¬(pyStrip s = "") := by simpa [isNonBlank] using h
    simp [is_numeric, hne]

/-- The column test of `find_points_column` agrees with the claim's
phrasing `columnQualifies`. -/
theorem find_points_test_eq (rows : List Row) :
    (fun column_name =>
      let nonBlank := (rows.map (fun r => rowGet r column_name (some ""))).filter isNonBlank
      !nonBlank.isEmpty && nonBlank.all is_numeric) = columnQualifies rows := by
  funext c
  rw [columnQualifies]
  simp only [filter_isEmpty_eq_not_any, Bool.not_not,
    filter_all_congr isNonBlank is_numeric
      (fun v => pyFloatAccepts (pyStrip (v.getD "")))
      (fun v hv => is_numeric_of_isNonBlank hv)]

/-- Claim C5 — points-column inference: `find_points_column` returns the
header equal to `"Points"` when one exists, otherwise the first header
whose column has at least one non-blank cell and whose non-blank cells all
parse as floats (`pointsColumnSpec`, written from the claim), and
otherwise — and in no other case — fails with the no-points-column
error. -/
theorem claim_C5 (fieldnames : List String) (rows : List Row) :
    find_points_column fieldnames rows =
      match pointsColumnSpec fieldnames rows with
      | some c => Except.ok c
      | none => Except.error "Could not find a points column in AllValues.csv." := by
  rw [find_points_column, pointsColumnSpec]
  cases h : fieldnames.find? (fun nm => nm == "Points") with
  | some s =>
    have hs : s = "Points" := find?_beq_eq_some h
    have hmem : s ∈ fieldnames := List.mem_of_find?_eq_some h
    subst hs
    simp [h, pyTruthy, hmem]
  | none =>
    have hmem : "Points" ∉ fieldnames := find?_beq_eq_none.mp h
    rw [find_points_test_eq rows]
    cases h2 : fieldnames.find? (columnQualifies rows) with
    | some t => simp [h, h2, pyTruthy, hmem]
    | none => simp [h, h2, pyTruthy, hmem]

theorem dropWhile_dropWhile {α : Type} (p : α → Bool) (l : List α) :
    (l.dropWhile p).dropWhile p = l.dropWhile p := by
  induction l with
  | nil => rfl
  | cons a l ih =>
    by_cases h : p a
    · simp [List.dropWhile_cons, h, ih]
    · simp [List.dropWhile_cons, h]

theorem dropWhile_head_false {α : Type} (p : α → Bool) :
    ∀ (l : List α) (a : α) (t : List α), l.dropWhile p = a :: t → p a = false := by
  intro l
  induction l with
  | nil => intro a t h; cases h
  | cons b l ih =>
    intro a t h
    by_cases hb : p b
    · rw [List.dropWhile_cons, if_pos hb] at h
      exact ih a t h
    · rw [List.dropWhile_cons, if_neg hb] at h
      injection h with h1 h2
      subst h1
      simpa using hb

theorem dropWhile_cons_of_false {α : Type} (p : α → Bool) (a : α) (l : List α)
    (h : p a = false) : (a :: l).dropWhile p = a :: l := by
  simp [List.dropWhile_cons, h]

/-- The stripped list is a leading segment of the list with only its
leading whitespace removed. -/
theorem pyStripList_prefix_dropWhile (l : List Char) :
    pyStripList l <+: (l.dropWhile isPySpace) := by
  rcases List.dropWhile_suffix (l := (l.dropWhile isPySpace).reverse) isPySpace with ⟨u, hu⟩
  exact ⟨u.reverse, by
    rw [pyStripList, ← List.reverse_append, hu, List.reverse_reverse]⟩

theorem pyStripList_idem (l : List Char) :
    pyStripList (pyStripList l) = pyStripList l := by
  have hA : (pyStripList l).dropWhile isPySpace = pyStripList l := by
    cases hz : pyStripList l with
    | nil => rfl
    | cons a t =>
      rcases pyStripList_prefix_dropWhile l with ⟨u, hu⟩
      rw [hz] at hu
      have hdw : l.dropWhile isPySpace = a :: (t ++ u) := by
        rw [← hu, List.cons_append]
      have hpa : isPySpace a = false := dropWhile_head_false isPySpace l a (t ++ u) hdw
      exact dropWhile_cons_of_false isPySpace a t hpa
  show (((pyStripList l).dropWhile isPySpace).reverse.dropWhile isPySpace).reverse =
    pyStripList l
  rw [hA]
  show ((((l.dropWhile isPySpace).reverse.dropWhile
      isPySpace).reverse).reverse.dropWhile isPySpace).reverse = pyStripList l
  rw [List.reverse_reverse, dropWhile_dropWhile]
  rfl

theorem pyStrip_idem (s : String) : pyStrip (pyStrip s) = pyStrip s := by
  show String.mk (pyStripList (pyStripList s.data)) = String.mk (pyStripList s.data)
  rw [pyStripList_idem]

theorem mem_pyDictInsert {K V : Type} [DecidableEq K] :
    ∀ (d : List (K × V)) (k : K) (v : V) (p : K × V),
      p ∈ pyDictInsert d k v → p ∈ d ∨ p = (k, v) := by
  intro d k v
  induction d with
  | nil =>
    intro p hp
    simp only [pyDictInsert, List.mem_singleton] at hp
    exact Or.inr hp
  | cons q rest ih =>
    intro p hp
    by_cases hq : q.1 = k
    · simp only [pyDictInsert, if_pos hq] at hp
      rcases List.mem_cons.mp hp with h | h
      · exact Or.inr h
      · exact Or.inl (List.mem_cons_of_mem q h)
    · simp only [pyDictInsert, if_neg hq] at hp
      rcases List.mem_cons.mp hp with h | h
      · exact Or.inl (h ▸ List.mem_cons_self q rest)
      · rcases ih p h with h2 | h2
        · exact Or.inl (List.mem_cons_of_mem q h2)
        · exact Or.inr h2

theorem exists_mem_of_pyHasKey {K V : Type} [DecidableEq K] :
    ∀ (d : List (K × V)) (k : K), pyHasKey d k = true → ∃ v, (k, v) ∈ d := by
  intro d k
  induction d with
  | nil => intro h; cases h
  | cons q rest ih =>
    intro h
    by_cases hq : q.1 = k
    · exact ⟨q.2, by rw [← hq, Prod.mk.eta]; exact List.mem_cons_self q rest⟩
    · simp only [pyHasKey, if_neg hq] at h
      rcases ih h with ⟨v, hv⟩
      exact ⟨v, List.mem_cons_of_mem q hv⟩

theorem mem_foldl_pyDictInsert {K V A : Type} [DecidableEq K]
    (keyOf : A → K) (valOf : A → V) :
    ∀ (items : List A) (init : List (K × V)) (p : K × V),
      p ∈ items.foldl (fun d a => pyDictInsert d (keyOf a) (valOf a)) init →
      p ∈ init ∨ ∃ a ∈ items, p = (keyOf a, valOf a) := by
  intro items
  induction items with
  | nil => intro init p hp; exact Or.inl hp
  | cons a items ih =>
    intro init p hp
    rw [List.foldl_cons] at hp
    rcases ih _ p hp with h | ⟨b, hb, rfl⟩
    · rcases mem_pyDictInsert init (keyOf a) (valOf a) p h with h2 | h2
      · exact Or.inl h2
      · exact Or.inr ⟨a, List.mem_cons_self a items, h2⟩
    · exact Or.inr ⟨b, List.mem_cons_of_mem a hb, rfl⟩

theorem pyHasKey_foldl_pyDictInsert {K V A : Type} [DecidableEq K]
    (keyOf : A → K) (valOf : A → V) :
    ∀ (items : List A) (init : List (K × V)) (k : K),
      pyHasKey (items.foldl (fun d a => pyDictInsert d (keyOf a) (valOf a)) init) k =
        (pyHasKey init k || items.any (fun a => decide (keyOf a = k))) := by
  intro items
  induction items with
  | nil => intro init k; simp
  | cons a items ih =>
    intro init k
    rw [List.foldl_cons, ih, pyHasKey_pyDictInsert]
    simp [List.any_cons, Bool.or_assoc, Bool.or_comm, Bool.or_left_comm]

theorem map_fst_zip_eq_take {α β : Type} :
    ∀ (l : List α) (m : List β), (List.zip l m).map Prod.fst = l.take m.length := by
  intro l
  induction l with
  | nil => intro m; simp
  | cons a l ih =>
    intro m
    cases m with
    | nil => simp
    | cons b m => simp [List.zip_cons_cons, List.take_succ_cons, ih]

/-- Every key stored in the raw reader dict is one of the raw header
names. -/
theorem mem_dictRowRaw_key (rawFields record : List String) (p : String × CellVal)
    (hp : p ∈ dictRowRaw rawFields record) : p.1 ∈ rawFields := by
  rw [dictRowRaw] at hp
  rcases mem_foldl_pyDictInsert (fun f : String => f) (fun _ => (none : CellVal))
      _ _ p hp with h | ⟨a, ha, rfl⟩
  · rcases mem_foldl_pyDictInsert (fun q : String × String => q.1)
        (fun q : String × String => (some q.2 : CellVal)) _ _ p h with h2 | ⟨b, hb, rfl⟩
    · simp at h2
    · exact (List.of_mem_zip hb).1
  · exact List.mem_of_mem_drop ha

/-- Every raw header name is a key of the raw reader dict (short rows are
padded with `None`). -/
theorem pyHasKey_dictRowRaw (rawFields record : List String) (f : String)
    (hf : f ∈ rawFields) : pyHasKey (dictRowRaw rawFields record) f = true := by
  rw [dictRowRaw, pyHasKey_foldl_pyDictInsert, pyHasKey_foldl_pyDictInsert]
  simp only [pyHasKey, Bool.false_or, Bool.or_eq_true, List.any_eq_true]
  have hsplit := List.take_append_drop record.length rawFields
  rw [← hsplit] at hf
  rcases List.mem_append.mp hf with h | h
  · left
    rw [← map_fst_zip_eq_take rawFields record] at h
    rcases List.mem_map.mp h with ⟨q, hq, rfl⟩
    exact ⟨q, hq, by simp⟩
  · right
    exact ⟨f, h, by simp⟩

/-- Shape of the entries of a cleaned row: the key is a trimmed header
name and the value is `None` or a trimmed string. -/
theorem mem_cleanRow (rawFields record : List String) (p : String × CellVal)
    (hp : p ∈ cleanRow rawFields record) :
    p.1 ∈ rawFields.map pyStrip ∧ (p.2 = none ∨ ∃ s, p.2 = some (pyStrip s)) := by
  rw [cleanRow] at hp
  rcases mem_foldl_pyDictInsert (fun q : String × CellVal => pyStrip q.1)
      (fun q : String × CellVal => q.2.map pyStrip) _ _ p hp with h | ⟨q, hq, rfl⟩
  · simp at h
  · refine ⟨List.mem_map.mpr ⟨q.1, mem_dictRowRaw_key _ _ _ hq, rfl⟩, ?_⟩
    cases hv : q.2 with
    | none => exact Or.inl (by simp [hv])
    | some s => exact Or.inr ⟨s, by simp [hv]⟩

/-- Every trimmed header name is a key of the cleaned row. -/
theorem pyHasKey_cleanRow (rawFields record : List String) (f : String)
    (hf : f ∈ rawFields) : pyHasKey (cleanRow rawFields record) (pyStrip f) = true := by
  rw [cleanRow, pyHasKey_foldl_pyDictInsert]
  simp only [pyHasKey, Bool.false_or, List.any_eq_true]
  rcases exists_mem_of_pyHasKey _ f (pyHasKey_dictRowRaw rawFields record f hf) with ⟨v, hv⟩
  exact ⟨(f, v), hv, by simp⟩

/-- Claim C7, counterexample to the original statement: in a file whose
first line is empty but whose second line is the non-empty record
`["Name"]`, the loader does not treat the first non-empty line as the
header — it fails with the no-header error, because `csv.DictReader`
reports the empty first record as its field names. -/
theorem claim_C7_counterexample :
    load_records "AllValues.csv" [[], ["Name"], ["Alpha"]] =
      Except.error "AllValues.csv has no header row."
    ∧ (["Name"] : List String) ≠ [] := by
  exact ⟨rfl, by decide⟩

/-- Claim C7, amended — header requirement of the loader: the reader's
first record (the file's first line, empty or not) is the header row, its
entries trimmed; the load fails with the no-header `FormatError` exactly
when there is no first record (empty file) or the first record is empty
(reader reports no field names). -/
theorem claim_C7_amended (path : String) (records : List (List String)) :
    ((records = [] ∨ records.head? = some []) →
      load_records path records = Except.error (path ++ " has no header row."))
    ∧ (∀ raw rest, records = raw :: rest → raw ≠ [] →
        load_records path records = Except.ok (raw.map pyStrip, loadRows raw rest)) := by
  constructor
  · intro h
    rcases h with h | h
    · subst h; rfl
    · cases records with
      | nil => simp at h
      | cons raw rest =>
        simp only [List.head?_cons, Option.some.injEq] at h
        subst h
        rfl
  · intro raw rest hrec hraw
    subst hrec
    have hne : ¬(raw.isEmpty = true) := by
      rw [List.isEmpty_iff]
      exact hraw
    simp only [load_records, if_neg hne]

/-- Witness for the amended claim C7 at concrete inputs: the empty file
fails, and a two-line file with header record `[" Name "]` loads with the
trimmed header. -/
theorem claim_C7_witness :
    load_records "AllValues.csv" [] = Except.error "AllValues.csv has no header row."
    ∧ load_records "AllValues.csv" [[" Name "], ["Alpha"]] =
        Except.ok ([" Name "].map pyStrip, loadRows [" Name "] [["Alpha"]]) := by
  exact ⟨(claim_C7_amended "AllValues.csv" []).1 (Or.inl rfl),
    (claim_C7_amended "AllValues.csv" [[" Name "], ["Alpha"]]).2
      [" Name "] [["Alpha"]] rfl (by decide)⟩

/-- Claim C8, counterexample to the original statement: loading the
records `[["A","B"],["x"]]` (a data row shorter than the header) stores
the cell of column `"B"` as `None` — a non-string — rather than the empty
string. -/
theorem claim_C8_counterexample :
    load_records "Available.csv" [["A", "B"], ["x"]] =
      Except.ok (["A", "B"], [[("A", some "x"), ("B", (none : CellVal))]])
    ∧ ((none : CellVal) ≠ some "") := by
  exact ⟨rfl, by decide⟩

/-- Claim C8, amended — table invariant established by the loader: in
every table the loader returns, each row's keys belong to the (trimmed)
header list, every header name is present as a key in every row, and every
stored string cell value is trimmed of leading and trailing whitespace —
but a cell missing from a short data row is stored as `None` (a
non-string), not as the empty string. -/
theorem claim_C8_amended (path : String) (records : List (List String))
    (fields : List String) (rows : List Row)
    (h : load_records path records = Except.ok (fields, rows)) :
    (∀ r ∈ rows, ∀ p ∈ r, p.1 ∈ fields ∧ ∀ s, p.2 = some s → pyStrip s = s)
    ∧ (∀ r ∈ rows, ∀ f ∈ fields, pyHasKey r f = true) := by
  cases records with
  | nil => exact absurd h (by simp [load_records])
  | cons raw rest =>
    rw [load_records] at h
    by_cases hr : raw.isEmpty
    · rw [if_pos hr] at h
      cases h
    · rw [if_neg hr] at h
      injection h with h2
      injection h2 with hf hrows
      subst hf
      subst hrows
      constructor
      · intro r hr2 p hp
        rcases List.mem_map.mp hr2 with ⟨record, hrec, rfl⟩
        rcases mem_cleanRow raw record p hp with ⟨hkey, hval⟩
        refine ⟨hkey, fun s hs => ?_⟩
        rcases hval with hv | ⟨t, ht⟩
        · rw [hv] at hs; cases hs
        · rw [ht] at hs
          injection hs with hst
          rw [← hst, pyStrip_idem]
      · intro r hr2 f hf2
        rcases List.mem_map.mp hr2 with ⟨record, hrec, rfl⟩
        rcases List.mem_map.mp hf2 with ⟨g, hg, rfl⟩
        exact pyHasKey_cleanRow raw record g hg

/-- Witness for the amended claim C8 at a concrete input: loading
`[["A"], [" x "]]` yields a row whose key `"A"` is a header name and whose
stored cell `"x"` is its own trim. -/
theorem claim_C8_witness :
    ("A" : String) ∈ (["A"] : List String) ∧ pyStrip "x" = "x" := by
  have h := claim_C8_amended "Available.csv" [["A"], [" x "]] ["A"]
    [[("A", some "x")]] rfl
  have h2 := (h.1 [("A", some "x")] (by simp) ("A", some "x") (by simp))
  exact ⟨h2.1, h2.2 "x" rfl⟩

/-- The `latin-1` codec succeeds on every sequence of bytes. -/
theorem decodeLatin1_total :
    ∀ (bytes : List Nat), (∀ b ∈ bytes, b < 256) →
      ∃ t, decodeLatin1 bytes = some t := by
  intro bytes h
  rw [decodeLatin1]
  suffices hs : ∃ l, mapOption
      (fun b => if b < 256 then some (Char.ofNat b) else none) bytes = some l by
    rcases hs with ⟨l, hl⟩
    exact ⟨String.mk l, by rw [hl]; rfl⟩
  induction bytes with
  | nil => exact ⟨[], rfl⟩
  | cons b bs ih =>
    have hb : b < 256 := h b (List.mem_cons_self b bs)
    rcases ih (fun x hx => h x (List.mem_cons_of_mem b hx)) with ⟨l, hl⟩
    refine ⟨Char.ofNat b :: l, ?_⟩
    rw [mapOption, if_pos hb, hl]

/-- Claim C10 — the decode-failure branch of the loader is unreachable:
the last candidate encoding of the fallback chain (`latin-1`) decodes
every byte sequence, so `load_decode` always succeeds and the
all-encodings-failed error it constructs is never raised. -/
theorem claim_C10 (bytes : List Nat) (h : ∀ b ∈ bytes, b < 256) :
    exceptOk (load_decode bytes) = true := by
  rw [load_decode]
  cases h1 : decodeUtf8Sig bytes with
  | some t => rfl
  | none =>
    cases h2 : decodeCp1252 bytes with
    | some t => rfl
    | none =>
      rcases decodeLatin1_total bytes h with ⟨t, h3⟩
      rw [h3]
      rfl

/-- Witness for claim C10 at the concrete byte `0x81`, which is invalid
UTF-8 and undefined in cp1252, yet decodes through the chain. -/
theorem claim_C10_witness : exceptOk (load_decode [129]) = true :=
  claim_C10 [129] (by decide)

/-- Claim C9 — atomicity of failure: whenever loading either input file
fails, or any column inference on the loaded tables fails, the modelled
run produces an error — the `ok` branch holding the output rows (from
which alone the output file is written, strictly after every fallible
stage in source order) is never reached, so no partial output is
produced. -/
theorem claim_C9 (allBytes availBytes : List Nat)
    (h : exceptOk (load_csv "AllValues.csv" allBytes) = false
      ∨ exceptOk (load_csv "Available.csv" availBytes) = false
      ∨ (∃ f r, load_csv "AllValues.csv" allBytes = Except.ok (f, r) ∧
          (exceptOk (find_name_column f "AllValues.csv") = false
            ∨ exceptOk (find_points_column f r) = false))
      ∨ (∃ f r, load_csv "Available.csv" availBytes = Except.ok (f, r) ∧
          exceptOk (find_name_column f "Available.csv") = false)) :
    exceptOk (mainModel allBytes availBytes) = false := by
  rw [mainModel]
  split
  · rfl
  · rename_i f r hA
    split
    · rfl
    · rename_i f2 r2 hV
      split
      · rfl
      · rename_i n1 hN1
        split
        · rfl
        · rename_i n2 hN2
          split
          · rfl
          · rename_i pc hP
            exfalso
            rcases h with h | h | ⟨f', r', heq, hfail⟩ | ⟨f', r', heq, hfail⟩
            · rw [hA] at h; simp [exceptOk] at h
            · rw [hV] at h; simp [exceptOk] at h
            · rw [hA] at heq
              injection heq with hpr
              injection hpr with hf hr
              subst hf
              subst hr
              rcases hfail with hf1 | hf1
              · rw [hN1] at hf1; simp [exceptOk] at hf1
              · rw [hP] at hf1; simp [exceptOk] at hf1
            · rw [hV] at heq
              injection heq with hpr
              injection hpr with hf hr
              subst hf
              subst hr
              rw [hN2] at hfail
              simp [exceptOk] at hfail

/-- Witness for claim C9 at concrete inputs: the value-source file
`Name,Label` / `Alpha,foo` has no points-like column, so its points
inference fails and the whole modelled run errors out. -/
theorem claim_C9_witness :
    exceptOk (mainModel
      [78, 97, 109, 101, 44, 76, 97, 98, 101, 108, 10,
        65, 108, 112, 104, 97, 44, 102, 111, 111]
      [78, 97, 109, 101, 10, 66, 101, 116, 97]) = false :=
  claim_C9 _ _ (Or.inr (Or.inr (Or.inl ⟨["Name", "Label"],
    [[("Name", some "Alpha"), ("Label", some "foo")]], rfl, Or.inr rfl⟩)))

end MergeAvailablePoints
